import Mathlib

/-!
Verification of the universeofx scrape-and-collect pipeline.

The definitions below are a shallow embedding of the member-scrape script
(src/unnamed/part_003) and of the visualization data filter
(src/public/universe/universe.js).  Numbers are modelled exactly: the
value produced by JavaScript parseFloat is represented as an exact scaled
decimal (an integer numerator over a power of ten), Math.floor of a
scaled value is integer floor division, and a bridging lemma relates this
to Rat.floor over the rationals.
-/

set_option maxRecDepth 100000

namespace UniverseOfX

/-! ### Follower-count parsing (part_003 lines 148-158 and 194-200) -/

/-- Value of a list of decimal digit characters, most significant first. -/
def digitsToNat (ds : List Char) : Nat :=
  ds.foldl (fun n c => 10 * n + (c.toNat - 48)) 0

/-- An exact decimal value: num / 10 ^ pow10.  This represents the result
of JavaScript parseFloat on a decimal literal without rounding. -/
structure DecVal where
  num : Int
  pow10 : Nat
deriving DecidableEq

/-- Rational value denoted by a DecVal. -/
def DecVal.toRat (p : DecVal) : Rat := (p.num : Rat) / (10 : Rat) ^ p.pow10

/-- Math.floor of the value scaled by a natural constant, computed
exactly: floor((num / 10 ^ pow10) * m) as an integer floor division. -/
def DecVal.floorScale (p : DecVal) (m : Nat) : Int :=
  (p.num * (m : Int)) / (10 : Int) ^ p.pow10

/-- Whitespace skipped by JavaScript parseFloat before the number. -/
def isWs (c : Char) : Bool :=
  (c == ' ') || (c == '\t') || (c == '\n') || (c == '\r')

/-- Mantissa part of JavaScript parseFloat: longest prefix of the given
characters of the shape digits, or digits dot digits, or dot digits.
Returns its exact decimal value and the unconsumed characters; none when
no digit is found (parseFloat would give NaN). -/
def parseMantissa (cs : List Char) : Option (DecVal × List Char) :=
  match cs.dropWhile Char.isDigit with
  | '.' :: r2 =>
    if cs.takeWhile Char.isDigit = [] ∧ r2.takeWhile Char.isDigit = [] then none
    else some
      (⟨(digitsToNat (cs.takeWhile Char.isDigit ++ r2.takeWhile Char.isDigit) : Int),
        (r2.takeWhile Char.isDigit).length⟩,
       r2.dropWhile Char.isDigit)
  | rest1 =>
    if cs.takeWhile Char.isDigit = [] then none
    else some (⟨(digitsToNat (cs.takeWhile Char.isDigit) : Int), 0⟩, rest1)

/-- Optional exponent part of JavaScript parseFloat starting at the given
characters: an e or E followed by an optionally signed digit run.  A bare
e with no digits is not consumed (exponent 0). -/
def parseExpPart (cs : List Char) : Int :=
  match cs with
  | c :: rest =>
    if (c == 'e') || (c == 'E') then
      match rest with
      | '-' :: r2 =>
        if r2.takeWhile Char.isDigit = [] then 0
        else -(digitsToNat (r2.takeWhile Char.isDigit) : Int)
      | '+' :: r2 =>
        if r2.takeWhile Char.isDigit = [] then 0
        else (digitsToNat (r2.takeWhile Char.isDigit) : Int)
      | r2 =>
        if r2.takeWhile Char.isDigit = [] then 0
        else (digitsToNat (r2.takeWhile Char.isDigit) : Int)
    else 0
  | [] => 0

/-- Scale a mantissa by a (possibly negative) power of ten. -/
def applyExp (p : DecVal) (e : Int) : DecVal :=
  if 0 ≤ e then ⟨p.num * (10 : Int) ^ e.toNat, p.pow10⟩
  else ⟨p.num, p.pow10 + (-e).toNat⟩

/-- JavaScript parseFloat over exact decimals: skip leading whitespace,
optional sign, mantissa, optional exponent; none models NaN (no parsable
numeric prefix). -/
def jsParseFloat (s : String) : Option DecVal :=
  match s.data.dropWhile isWs with
  | '-' :: r => (parseMantissa r).map (fun p => ⟨-(applyExp p.1 (parseExpPart p.2)).num,
                                                 (applyExp p.1 (parseExpPart p.2)).pow10⟩)
  | '+' :: r => (parseMantissa r).map (fun p => applyExp p.1 (parseExpPart p.2))
  | cs => (parseMantissa cs).map (fun p => applyExp p.1 (parseExpPart p.2))

/-- The regex test /k/i of part_003 line 152. -/
def hasKI (s : String) : Bool := s.data.any (fun c => (c == 'k') || (c == 'K'))

/-- The regex test /m/i of part_003 line 153. -/
def hasMI (s : String) : Bool := s.data.any (fun c => (c == 'm') || (c == 'M'))

/-- Line 154: parseInt of the text with every non-digit removed; none
models NaN (parseInt of the empty string). -/
def jsParseIntDigits (s : String) : Option Int :=
  if s.data.filter Char.isDigit = [] then none
  else some (digitsToNat (s.data.filter Char.isDigit) : Int)

/-- The follower branch of the hover-card evaluate (lines 152-154),
combined with the isNaN-to-null guard of line 198: a NaN result of any
branch is stored as null, modelled by none. -/
def parseFollowers (text : String) : Option Int :=
  if hasKI text then (jsParseFloat text).map (fun p => p.floorScale 1000)
  else if hasMI text then (jsParseFloat text).map (fun p => p.floorScale 1000000)
  else jsParseIntDigits text

/-- floorScale computes exactly the floor of the rational value times the
scaling constant. -/
theorem floorScale_eq (p : DecVal) (m : Nat) :
    p.floorScale m = ⌊p.toRat * (m : Rat)⌋ := by
  unfold DecVal.floorScale DecVal.toRat
  rw [show ((p.num : Rat) / (10 : Rat) ^ p.pow10 * (m : Rat)) =
        ((p.num * (m : Int) : Int) : Rat) / (((10 ^ p.pow10 : Nat) : Nat) : Rat) by
      push_cast; ring]
  rw [Rat.floor_intCast_div_natCast]
  push_cast
  ring_nf

example : parseFollowers "12.3K" = some 12300 := by decide
example : parseFollowers "1.2M" = some 1200000 := by decide
example : parseFollowers "4,502" = some 4502 := by decide
example : parseFollowers "" = none := by decide
example : parseFollowers "-1k" = some (-1000) := by decide
example : jsParseFloat "12.3K" = some ⟨123, 1⟩ := by decide

/-! ### Hover-card DOM model and profile extraction (part_003 lines 76-204) -/

/-- The enriched user record written to the dataset (part_003 lines
17-23); a null follower count is modelled by none. -/
structure EnrichedUser where
  handle : String
  name : String
  bio : String
  followers : Option Int
  pfp_url : String
deriving DecidableEq

/-- A child node of the chosen bio div (lines 134-140): either an inline
image carrying alt text, or any other node carrying its textContent. -/
inductive BioNode
  | img (alt : String)
  | other (text : String)
deriving DecidableEq

/-- A div with dir equal to auto inside the hover card (lines 121-141):
its whole textContent, the number of span descendants, and its direct
child nodes. -/
structure BioDiv where
  textContent : String
  spanCount : Nat
  childNodes : List BioNode
deriving DecidableEq

/-- An anchor inside the hover card (lines 144-151): its href attribute
(none when absent) and the textContent of its first span descendant
(none when there is no span or its textContent is empty, both falsy in
the source guard). -/
structure Anchor where
  href : Option String
  spanText : Option String
deriving DecidableEq

/-- The hover-card DOM as read by the evaluate of lines 114-159. -/
structure HoverCard where
  bioDivs : List BioDiv
  anchors : List Anchor
deriving DecidableEq

/-- Occurrence test over character lists, as JavaScript String.includes. -/
def charsContain (pat : List Char) : List Char → Bool
  | [] => pat.isEmpty
  | c :: rest => pat.isPrefixOf (c :: rest) || charsContain pat rest

/-- True when pat occurs inside s, as JavaScript String.includes. -/
def strContains (s pat : String) : Bool := charsContain pat.data s.data

/-- Lower-casing as JavaScript toLowerCase, over the character list. -/
def strLower (s : String) : String := String.mk (s.data.map Char.toLower)

/-- Leading and trailing whitespace removal as JavaScript trim (modelled
on the ASCII whitespace characters). -/
def strTrim (s : String) : String :=
  String.mk (((s.data.dropWhile isWs).reverse.dropWhile isWs).reverse)

/-- The bio-div selection heuristic of lines 122-131. -/
def bioDivOk (d : BioDiv) : Bool :=
  (!(strLower d.textContent == "")) &&
  (!(strContains (strLower d.textContent) "click to follow")) &&
  (!(strContains (strLower d.textContent) "@")) &&
  (!(strContains (strLower d.textContent) "following")) &&
  (d.spanCount ≤ 2)

/-- Text contributed by one child node of the bio div (lines 134-139). -/
def bioNodeText : BioNode → String
  | BioNode.img alt => alt
  | BioNode.other text => text

/-- The anchor filter of lines 144-147: href matches the regex ending in
the word followers. -/
def isFollowersAnchor (a : Anchor) : Bool :=
  match a.href with
  | some href => "followers".data.isSuffixOf href.data
  | none => false

/-- The page.evaluate of lines 114-159: bio and follower count read from
the hover card; with no card in the document both keep their initial
values (empty bio, null followers).  The follower branch folds in the
isNaN guard of line 198. -/
def hoverEval (card : Option HoverCard) : String × Option Int :=
  match card with
  | none => ("", none)
  | some hc =>
    (match hc.bioDivs.find? bioDivOk with
     | some d => strTrim (String.join (d.childNodes.map bioNodeText))
     | none => "",
     match hc.anchors.find? isFollowersAnchor with
     | some a =>
       match a.spanText with
       | some text => parseFollowers text
       | none => none
     | none => none)

/-- Outcome of the avatar download attempt for one row, covering every
event path of lines 25-41: the write stream created on line 28 can fire
an error event (for example an open failure when the public/pfp
directory is missing); the https.get of lines 29-39 can fire its error
event; or a response arrives, with a status code, whose body is piped to
the file — the response/pipe can fire an error event mid-body
(streamErr), and otherwise finish fires and closing the stream can fail
(closeErr). -/
inductive NetOutcome
  | netError
  | fileStreamError
  | response (status : Nat) (streamErr : Bool) (closeErr : Bool)
deriving DecidableEq

/-- How the downloadImage promise of lines 25-41 settles: it resolves,
it rejects with an error, or — because neither the write stream nor the
response stream has an error listener — an unhandled error event is
raised, the promise never settles and the Node process aborts. -/
inductive DownloadResult
  | resolved
  | rejected (e : String)
  | crashed
deriving DecidableEq

/-- downloadImage (lines 25-41): rejects exactly on a request error
(line 39) or a file-close error (line 34); the response status code is
never inspected and the body is written regardless; a write-stream or
response-stream error event has no listener, so it crashes the process
instead of rejecting. -/
def downloadImage : NetOutcome → DownloadResult
  | NetOutcome.netError => DownloadResult.rejected "request error"
  | NetOutcome.fileStreamError => DownloadResult.crashed
  | NetOutcome.response _ streamErr closeErr =>
    if streamErr then DownloadResult.crashed
    else if closeErr then DownloadResult.rejected "close error"
    else DownloadResult.resolved

/-- Everything the orchestrator observes about one member row while
processing it (lines 76-204): the data-testid of the avatar container
when present, the hover card present in the document at evaluate time
(none when it never appeared within the bounded wait), the src of the
first img, the textContent of the first span, and the network outcome of
the avatar download attempt.  A download whose result is crashed aborts
the whole Node process in the source (an unhandled stream error event),
so the row-processing step below models rows whose download settles:
resolves, or rejects into the try/catch of lines 180-185. -/
structure RowObs where
  avatarTestId : Option String
  hoverCard : Option HoverCard
  imgSrc : Option String
  nameText : Option String
  download : NetOutcome
deriving DecidableEq

/-- Handle extraction of lines 82-90: the data-testid of the avatar
container with the UserAvatar-Container- prefix stripped; the empty
string (a skipped row) when the container or the prefix is missing. -/
def rowHandle (c : RowObs) : String :=
  match c.avatarTestId with
  | some tid =>
    if "UserAvatar-Container-".data.isPrefixOf tid.data
    then String.mk (tid.data.drop 21) else ""
  | none => ""

/-- The EnrichedUser built for one row (lines 187-200).  The download
attempt of lines 178-185 is wrapped in try/catch in the source and has no
effect on the record; pfp_url keeps the original remote URL. -/
def mkUser (c : RowObs) (handle : String) : EnrichedUser :=
  { handle := handle
    name := c.nameText.getD ""
    bio := (hoverEval c.hoverCard).1
    followers := (hoverEval c.hoverCard).2
    pfp_url := c.imgSrc.getD "" }

example :
    mkUser ⟨some "UserAvatar-Container-ada", none, some "https://img/x.jpg",
            some "Ada", NetOutcome.netError⟩ "ada" =
      ⟨"ada", "Ada", "", none, "https://img/x.jpg"⟩ := by decide

example : rowHandle ⟨some "UserAvatar-Container-ada", none, none, none,
    NetOutcome.netError⟩ = "ada" := by decide

example :
    hoverEval (some ⟨[⟨"likes Lean", 0, [BioNode.other "likes ",
                       BioNode.img "Lean"]⟩],
                     [⟨some "/ada/followers", some "12.3K"⟩]⟩) =
      ("likes Lean", some 12300) := by decide

/-! ### Collection state, dedup gate and the scroll loop
(part_003 lines 56-72, 90, 202-233) -/

/-- JavaScript Map.set over the insertion-ordered association list that
models the collected Map: replace in place when the key is present,
append otherwise. -/
def mapSet (k : String) (v : EnrichedUser) :
    List (String × EnrichedUser) → List (String × EnrichedUser)
  | [] => [(k, v)]
  | p :: rest => if p.1 = k then (k, v) :: rest else p :: mapSet k v rest

/-- JavaScript Map.get: value of the first entry with the given key. -/
def mapGet (k : String) : List (String × EnrichedUser) → Option EnrichedUser
  | [] => none
  | p :: rest => if p.1 = k then some p.2 else mapGet k rest

/-- The in-memory scrape state: the collected Map in insertion order, the
processed-handles Set (observed only through membership), and the log of
checkpoint writes performed so far, each a snapshot of the values written
by fs.writeJSON. -/
structure ScrapeState where
  collected : List (String × EnrichedUser)
  processed : List String
  checkpoints : List (List EnrichedUser)
deriving DecidableEq

/-- Processing of a single row (lines 76-212): skip when the handle is
empty or already processed (line 90); otherwise build the user, set it in
the collected Map, add the handle to the processed set, and checkpoint
the full collection when the new total size is divisible by 25 (lines
206-211).  A row whose cell has disappeared is representable as one with
no avatar container, which is likewise skipped. -/
def processCell (st : ScrapeState) (c : RowObs) : ScrapeState :=
  if rowHandle c = "" ∨ rowHandle c ∈ st.processed then st
  else
    ⟨mapSet (rowHandle c) (mkUser c (rowHandle c)) st.collected,
     rowHandle c :: st.processed,
     if (mapSet (rowHandle c) (mkUser c (rowHandle c)) st.collected).length % 25 = 0
     then st.checkpoints ++
       [(mapSet (rowHandle c) (mkUser c (rowHandle c)) st.collected).map (fun p => p.2)]
     else st.checkpoints⟩

/-- The inner for-loop over the rendered cells (lines 76-213). -/
def processPass (cells : List RowObs) (st : ScrapeState) : ScrapeState :=
  cells.foldl processCell st

/-- One iteration of the scroll loop, as observed through the page: the
member rows rendered at the start of the iteration, and the avatar-handle
list read back at the stagnation check of lines 216-220 (after the rows
were processed). -/
structure Iteration where
  cells : List RowObs
  visible : List String
deriving DecidableEq

/-- One body of the while loop (lines 72-233): process the rendered
cells, then filter the visible handles against the processed set; an
empty remainder increments the stagnation counter, otherwise it resets
to zero (lines 221-226). -/
def stepIter (fix : Iteration) (st : ScrapeState) (stag : Nat) : ScrapeState × Nat :=
  if (fix.visible.filter
        (fun h => decide (h ∉ (processPass fix.cells st).processed))) = []
  then (processPass fix.cells st, stag + 1)
  else (processPass fix.cells st, 0)

/-- The while loop of line 72, driven by the schedule of page states per
iteration: runs while the stagnation counter is below 5, with explicit
fuel since the source loop need not terminate.  Returns the number of
iterations executed and the final state when the loop condition turns
false within the fuel; none models a run that has not settled. -/
def runLoop (sched : Nat → Iteration) :
    Nat → Nat → ScrapeState → Nat → Option (Nat × ScrapeState)
  | 0, i, st, stag => if 5 ≤ stag then some (i, st) else none
  | fuel + 1, i, st, stag =>
    if 5 ≤ stag then some (i, st)
    else runLoop sched fuel (i + 1) (stepIter (sched i) st stag).1 (stepIter (sched i) st stag).2

/-- Resume load of lines 59-67: when the output file is absent (none) the
structures stay empty; otherwise every loaded user is set in the
collected Map and its handle added to the processed set, in file order.
This is the per-user step (lines 62-65). -/
def loadStep (st : ScrapeState) (u : EnrichedUser) : ScrapeState :=
  ⟨mapSet u.handle u st.collected,
   if u.handle ∈ st.processed then st.processed else u.handle :: st.processed,
   st.checkpoints⟩

/-- Resume load of lines 59-67 (see loadStep for one user). -/
def loadPrevious : Option (List EnrichedUser) → ScrapeState
  | none => ⟨[], [], []⟩
  | some users => users.foldl loadStep ⟨[], [], []⟩

/-- The unconditional final save of lines 236-239, appended to the
checkpoint log after the loop exits. -/
def finalSave (st : ScrapeState) : ScrapeState :=
  ⟨st.collected, st.processed, st.checkpoints ++ [st.collected.map (fun p => p.2)]⟩

/-- A whole scrape run: load the previous dataset, run the scroll loop
from stagnation zero, and on loop termination perform the final save. -/
def scrape (prev : Option (List EnrichedUser)) (sched : Nat → Iteration)
    (fuel : Nat) : Option (Nat × ScrapeState) :=
  (runLoop sched fuel 0 (loadPrevious prev) 0).map (fun p => (p.1, finalSave p.2))

/-! ### Checkpoint writes as filesystem operations (lines 206-211 and
236-239) -/

/-- The filesystem operations the script can issue for persistence. -/
inductive FsOp
  | ensureDir (dir : String)
  | writeJSON (path : String) (content : List EnrichedUser)
  | rename (src : String) (dst : String)
deriving DecidableEq

/-- The destination dataset path (line 12). -/
def outputPath : String := "./public/universe/universe2.json"

/-- The operations of one checkpoint write (lines 208-209, identical in
shape to the final save of lines 237-238): ensure the data directory and
write the serialized collection values directly to the destination. -/
def checkpointOps (users : List EnrichedUser) : List FsOp :=
  [FsOp.ensureDir "./data", FsOp.writeJSON outputPath users]

/-- Whether a filesystem operation is a rename. -/
def isRenameOp : FsOp → Bool
  | FsOp.rename _ _ => true
  | _ => false

/-! ### The visualization consumer filter
(src/public/universe/universe.js lines 55-57, same text in part_001) -/

/-- The predicate of the users.filter call: the user is truthy (always,
for a typed record), its followers field is a number (null is not), and
strictly positive. -/
def keepUser (u : EnrichedUser) : Bool :=
  match u.followers with
  | some n => decide (0 < n)
  | none => false

/-- The dataset filter applied before the scene is built. -/
def filterUsers (users : List EnrichedUser) : List EnrichedUser :=
  users.filter keepUser

/-! ### Helper lemmas about the collected Map -/

theorem mapGet_mapSet_self (k : String) (v : EnrichedUser) :
    ∀ m, mapGet k (mapSet k v m) = some v := by
  intro m
  induction m with
  | nil => simp [mapSet, mapGet]
  | cons p rest ih =>
    by_cases h : p.1 = k
    · simp [mapSet, mapGet, h]
    · simp [mapSet, mapGet, h, ih]

theorem mapGet_mapSet_ne (k q : String) (v : EnrichedUser) (hkq : q ≠ k) :
    ∀ m, mapGet k (mapSet q v m) = mapGet k m := by
  intro m
  induction m with
  | nil => simp [mapSet, mapGet, hkq]
  | cons p rest ih =>
    by_cases h : p.1 = q
    · rw [show mapSet q v (p :: rest) = (q, v) :: rest by simp [mapSet, h]]
      rw [show mapGet k ((q, v) :: rest) = mapGet k rest by simp [mapGet, hkq]]
      rw [show mapGet k (p :: rest) = mapGet k rest by simp [mapGet, h, hkq]]
    · rw [show mapSet q v (p :: rest) = p :: mapSet q v rest by simp [mapSet, h]]
      by_cases h2 : p.1 = k
      · simp [mapGet, h2]
      · simp [mapGet, h2, ih]

theorem mem_keys_mapSet (k : String) (v : EnrichedUser) :
    ∀ m a, a ∈ (mapSet k v m).map (fun p => p.1) →
      a = k ∨ a ∈ m.map (fun p => p.1) := by
  intro m
  induction m with
  | nil => intro a ha; simp [mapSet] at ha; exact Or.inl ha
  | cons p rest ih =>
    intro a ha
    by_cases h : p.1 = k
    · simp [mapSet, h] at ha
      rcases ha with ha | ha
      · exact Or.inl ha
      · exact Or.inr (by simp [ha])
    · simp [mapSet, h] at ha
      rcases ha with ha | ha
      · exact Or.inr (by simp [ha])
      · rcases ih a (by simpa using ha) with h1 | h1
        · exact Or.inl h1
        · exact Or.inr (by simp [h1])

theorem mapSet_keys_nodup (k : String) (v : EnrichedUser) :
    ∀ m, (m.map (fun p => p.1)).Nodup →
      ((mapSet k v m).map (fun p => p.1)).Nodup := by
  intro m
  induction m with
  | nil => intro _; simp [mapSet]
  | cons p rest ih =>
    intro h
    rw [List.map_cons, List.nodup_cons] at h
    by_cases hp : p.1 = k
    · rw [show mapSet k v (p :: rest) = (k, v) :: rest by simp [mapSet, hp]]
      rw [List.map_cons, List.nodup_cons]
      exact ⟨hp ▸ h.1, h.2⟩
    · rw [show mapSet k v (p :: rest) = p :: mapSet k v rest by simp [mapSet, hp]]
      rw [List.map_cons, List.nodup_cons]
      refine ⟨fun hmem => ?_, ih h.2⟩
      rcases mem_keys_mapSet k v rest p.1 hmem with h1 | h1
      · exact hp h1
      · exact h.1 h1

theorem mapSet_eq_append (k : String) (v : EnrichedUser) :
    ∀ m, (∀ p ∈ m, p.1 ≠ k) → mapSet k v m = m ++ [(k, v)] := by
  intro m
  induction m with
  | nil => intro _; rfl
  | cons p rest ih =>
    intro h
    have hp : p.1 ≠ k := h p (List.mem_cons_self p rest)
    rw [show mapSet k v (p :: rest) = p :: mapSet k v rest by simp [mapSet, hp]]
    rw [ih (fun q hq => h q (List.mem_cons_of_mem p hq))]
    rfl

theorem mapSet_handles (k : String) (v : EnrichedUser) (hv : v.handle = k) :
    ∀ m, (∀ p ∈ m, (p.2).handle = p.1) →
      ∀ p ∈ mapSet k v m, (p.2).handle = p.1 := by
  intro m
  induction m with
  | nil => intro _ p hp; simp [mapSet] at hp; simp [hp, hv]
  | cons q rest ih =>
    intro h p hp
    by_cases hq : q.1 = k
    · rw [show mapSet k v (q :: rest) = (k, v) :: rest by simp [mapSet, hq]] at hp
      rcases List.mem_cons.mp hp with h1 | h1
      · simp [h1, hv]
      · exact h p (List.mem_cons_of_mem q h1)
    · rw [show mapSet k v (q :: rest) = q :: mapSet k v rest by simp [mapSet, hq]] at hp
      rcases List.mem_cons.mp hp with h1 | h1
      · exact h p (h1 ▸ List.mem_cons_self q rest)
      · exact ih (fun r hr => h r (List.mem_cons_of_mem q hr)) p h1

/-! ### Helper lemmas about row processing and the scroll loop -/

theorem processCell_skip (st : ScrapeState) (c : RowObs)
    (h : rowHandle c = "" ∨ rowHandle c ∈ st.processed) :
    processCell st c = st := by
  unfold processCell
  rw [if_pos h]

theorem mem_processed_processCell (st : ScrapeState) (c : RowObs) {a : String}
    (h : a ∈ st.processed) : a ∈ (processCell st c).processed := by
  unfold processCell
  split
  · exact h
  · exact List.mem_cons_of_mem _ h

theorem mem_processed_processPass : ∀ (cells : List RowObs) (st : ScrapeState)
    {a : String}, a ∈ st.processed → a ∈ (processPass cells st).processed := by
  intro cells
  induction cells with
  | nil => intro st a h; exact h
  | cons c rest ih =>
    intro st a h
    exact ih (processCell st c) (mem_processed_processCell st c h)

theorem rowHandle_mem_processCell (st : ScrapeState) (c : RowObs)
    (h : rowHandle c ≠ "") : rowHandle c ∈ (processCell st c).processed := by
  by_cases hx : rowHandle c = "" ∨ rowHandle c ∈ st.processed
  · rw [processCell_skip st c hx]
    exact hx.resolve_left h
  · unfold processCell
    rw [if_neg hx]
    exact List.mem_cons_self _ _

theorem rowHandle_mem_processPass : ∀ (cells : List RowObs) (st : ScrapeState)
    {c : RowObs}, c ∈ cells → rowHandle c ≠ "" →
    rowHandle c ∈ (processPass cells st).processed := by
  intro cells
  induction cells with
  | nil => intro st c hc _; cases hc
  | cons d rest ih =>
    intro st c hc h
    cases hc with
    | head => exact mem_processed_processPass rest _ (rowHandle_mem_processCell st _ h)
    | tail _ hm => exact ih (processCell st d) hm h

theorem processPass_eq_self : ∀ (cells : List RowObs) (st : ScrapeState),
    (∀ c ∈ cells, rowHandle c = "" ∨ rowHandle c ∈ st.processed) →
    processPass cells st = st := by
  intro cells
  induction cells with
  | nil => intro st _; rfl
  | cons d rest ih =>
    intro st h
    have hd : processCell st d = st :=
      processCell_skip st d (h d (List.mem_cons_self d rest))
    show processPass rest (processCell st d) = st
    rw [hd]
    exact ih st (fun c hc => h c (List.mem_cons_of_mem d hc))

theorem stepIter_covered (fix : Iteration) (st : ScrapeState) (stag : Nat)
    (h : ∀ x ∈ fix.visible, x ∈ (processPass fix.cells st).processed) :
    stepIter fix st stag = (processPass fix.cells st, stag + 1) := by
  have hnil : (fix.visible.filter
      (fun x => decide (x ∉ (processPass fix.cells st).processed))) = [] := by
    rw [List.filter_eq_nil_iff]
    intro a ha
    simpa using h a ha
  unfold stepIter
  rw [hnil, if_pos rfl]

theorem stepIter_reset (fix : Iteration) (st : ScrapeState) (stag : Nat)
    (h : ∃ x ∈ fix.visible, x ∉ (processPass fix.cells st).processed) :
    (stepIter fix st stag).2 = 0 := by
  obtain ⟨x, hx, hnx⟩ := h
  have hne : ¬ (fix.visible.filter
      (fun y => decide (y ∉ (processPass fix.cells st).processed))) = [] := by
    intro hnil
    have : x ∈ (fix.visible.filter
        (fun y => decide (y ∉ (processPass fix.cells st).processed))) := by
      rw [List.mem_filter]
      exact ⟨hx, by simpa using hnx⟩
    rw [hnil] at this
    cases this
  unfold stepIter
  rw [if_neg hne]

theorem runLoop_settled (sched : Nat → Iteration) (fuel i : Nat)
    (st : ScrapeState) {stag : Nat} (h : 5 ≤ stag) :
    runLoop sched fuel i st stag = some (i, st) := by
  cases fuel with
  | zero => unfold runLoop; rw [if_pos h]
  | succ f => unfold runLoop; rw [if_pos h]

theorem runLoop_fixpoint (fix : Iteration) (st : ScrapeState)
    (hpass : processPass fix.cells st = st)
    (hvis : ∀ x ∈ fix.visible, x ∈ st.processed) :
    ∀ (n fuel i stag : Nat), stag + n = 5 → n ≤ fuel →
      runLoop (fun _ => fix) fuel i st stag = some (i + n, st) := by
  intro n
  induction n with
  | zero =>
    intro fuel i stag h5 _
    rw [runLoop_settled _ _ _ _ (show 5 ≤ stag by omega)]
    simp
  | succ m ih =>
    intro fuel i stag h5 hle
    have hlt : ¬ 5 ≤ stag := by omega
    cases fuel with
    | zero => omega
    | succ f =>
      have hstep : stepIter fix st stag = (st, stag + 1) := by
        rw [stepIter_covered fix st stag (by rw [hpass]; exact hvis), hpass]
      have hu : runLoop (fun _ => fix) (f + 1) i st stag
          = runLoop (fun _ => fix) f (i + 1) (stepIter fix st stag).1
              (stepIter fix st stag).2 := by
        conv_lhs => rw [runLoop]
        rw [if_neg hlt]
      rw [hu, hstep]
      have := ih f (i + 1) (stag + 1) (by omega) (by omega)
      rw [this]
      rw [show i + 1 + m = i + (m + 1) by omega]

theorem runLoop_stagnant (sched : Nat → Iteration) (P : List String)
    (H : ∀ j, ∀ x ∈ (sched j).visible, x ∈ P) :
    ∀ (n fuel i : Nat) (st : ScrapeState) (stag : Nat),
      (∀ x ∈ P, x ∈ st.processed) → stag + n = 5 → n ≤ fuel →
      ∃ stf, runLoop sched fuel i st stag = some (i + n, stf) := by
  intro n
  induction n with
  | zero =>
    intro fuel i st stag hsub h5 _
    refine ⟨st, ?_⟩
    rw [runLoop_settled sched fuel i st (show 5 ≤ stag by omega)]
    simp
  | succ m ih =>
    intro fuel i st stag hsub h5 hle
    have hlt : ¬ 5 ≤ stag := by omega
    cases fuel with
    | zero => omega
    | succ f =>
      have hcov : ∀ x ∈ (sched i).visible,
          x ∈ (processPass (sched i).cells st).processed :=
        fun x hx => mem_processed_processPass _ _ (hsub x (H i x hx))
      have hstep := stepIter_covered (sched i) st stag hcov
      have hsub' : ∀ x ∈ P, x ∈ (processPass (sched i).cells st).processed :=
        fun x hx => mem_processed_processPass _ _ (hsub x hx)
      obtain ⟨stf, hrun⟩ :=
        ih f (i + 1) (processPass (sched i).cells st) (stag + 1) hsub'
          (by omega) (by omega)
      refine ⟨stf, ?_⟩
      have hu : runLoop sched (f + 1) i st stag
          = runLoop sched f (i + 1) (stepIter (sched i) st stag).1
              (stepIter (sched i) st stag).2 := by
        conv_lhs => rw [runLoop]
        rw [if_neg hlt]
      rw [hu, hstep]
      rw [hrun]
      rw [show i + 1 + m = i + (m + 1) by omega]

/-! ### Helper lemmas about the resume load -/

theorem mem_loadStep_processed (st : ScrapeState) (u : EnrichedUser) (x : String) :
    x ∈ (loadStep st u).processed ↔ x = u.handle ∨ x ∈ st.processed := by
  unfold loadStep
  by_cases h : u.handle ∈ st.processed
  · rw [if_pos h]
    constructor
    · exact Or.inr
    · rintro (rfl | hx)
      exacts [h, hx]
  · rw [if_neg h]
    exact List.mem_cons

theorem mem_foldLoad_processed : ∀ (users : List EnrichedUser) (st : ScrapeState)
    (x : String), x ∈ (users.foldl loadStep st).processed ↔
      x ∈ st.processed ∨ x ∈ users.map (fun u => u.handle) := by
  intro users
  induction users with
  | nil => intro st x; simp
  | cons u rest ih =>
    intro st x
    show x ∈ (rest.foldl loadStep (loadStep st u)).processed ↔ _
    rw [ih, mem_loadStep_processed]
    simp
    tauto

theorem mapGet_foldLoad_frozen : ∀ (users : List EnrichedUser) (st : ScrapeState)
    (k : String), (∀ u ∈ users, u.handle ≠ k) →
    mapGet k (users.foldl loadStep st).collected = mapGet k st.collected := by
  intro users
  induction users with
  | nil => intro st k _; rfl
  | cons u rest ih =>
    intro st k h
    show mapGet k (rest.foldl loadStep (loadStep st u)).collected = _
    rw [ih (loadStep st u) k (fun w hw => h w (List.mem_cons_of_mem u hw))]
    exact mapGet_mapSet_ne k u.handle u (h u (List.mem_cons_self u rest)) st.collected

theorem mapGet_foldLoad : ∀ (users : List EnrichedUser) (st : ScrapeState)
    (u : EnrichedUser), (users.map (fun w => w.handle)).Nodup → u ∈ users →
    mapGet u.handle (users.foldl loadStep st).collected = some u := by
  intro users
  induction users with
  | nil => intro st u _ hu; cases hu
  | cons w rest ih =>
    intro st u hnd hu
    rw [List.map_cons, List.nodup_cons] at hnd
    cases hu with
    | head =>
      show mapGet w.handle (rest.foldl loadStep (loadStep st w)).collected = some w
      rw [mapGet_foldLoad_frozen rest (loadStep st w) w.handle
            (fun v hv hveq => hnd.1 (hveq ▸ List.mem_map_of_mem (fun x => x.handle) hv))]
      exact mapGet_mapSet_self w.handle w st.collected
    | tail _ hm =>
      exact ih (loadStep st w) u hnd.2 hm

/-! ### The state invariant tying the collected Map and the processed set -/

/-- Invariant of every state reachable from a fresh start: the collected
keys are pairwise distinct, every stored record carries its key as its
handle, and the processed set holds exactly the collected keys. -/
def StateInv (st : ScrapeState) : Prop :=
  (st.collected.map (fun p => p.1)).Nodup ∧
  (∀ p ∈ st.collected, (p.2).handle = p.1) ∧
  (∀ x, x ∈ st.processed ↔ x ∈ st.collected.map (fun p => p.1))

theorem stateInv_empty : StateInv ⟨[], [], []⟩ := by
  refine ⟨List.nodup_nil, ?_, ?_⟩
  · intro p hp; cases hp
  · intro x; simp

theorem stateInv_processCell (st : ScrapeState) (c : RowObs)
    (h : StateInv st) : StateInv (processCell st c) := by
  by_cases hx : rowHandle c = "" ∨ rowHandle c ∈ st.processed
  · rw [processCell_skip st c hx]; exact h
  · have hnotmem : rowHandle c ∉ st.collected.map (fun p => p.1) := by
      intro hmem
      exact hx (Or.inr ((h.2.2 (rowHandle c)).mpr hmem))
    have hkeys : ∀ p ∈ st.collected, p.1 ≠ rowHandle c := by
      intro p hp hpk
      exact hnotmem (hpk ▸ List.mem_map_of_mem (fun q => q.1) hp)
    have happ : mapSet (rowHandle c) (mkUser c (rowHandle c)) st.collected
        = st.collected ++ [(rowHandle c, mkUser c (rowHandle c))] :=
      mapSet_eq_append (rowHandle c) (mkUser c (rowHandle c)) st.collected hkeys
    unfold processCell
    rw [if_neg hx]
    refine ⟨?_, ?_, ?_⟩
    · rw [happ, List.map_append, List.nodup_append]
      refine ⟨h.1, by simp, ?_⟩
      intro a ha hb
      simp at hb
      exact hnotmem (hb ▸ ha)
    · intro p hp
      rw [happ] at hp
      rcases List.mem_append.mp hp with h1 | h1
      · exact h.2.1 p h1
      · simp at h1
        simp [h1, mkUser]
    · intro x
      rw [happ, List.map_append]
      simp only [List.mem_cons, List.mem_append, List.map_cons, List.map_nil]
      rw [h.2.2 x]
      simp
      tauto

theorem stateInv_processPass : ∀ (cells : List RowObs) (st : ScrapeState),
    StateInv st → StateInv (processPass cells st) := by
  intro cells
  induction cells with
  | nil => intro st h; exact h
  | cons c rest ih =>
    intro st h
    exact ih (processCell st c) (stateInv_processCell st c h)

/-- Reloading the serialized values of a collected Map that satisfies the
invariant rebuilds exactly the same Map. -/
theorem foldLoad_roundtrip : ∀ (m : List (String × EnrichedUser)) (acc : ScrapeState),
    (∀ p ∈ m, (p.2).handle = p.1) →
    ((acc.collected.map (fun p => p.1)) ++ m.map (fun p => p.1)).Nodup →
    ((m.map (fun p => p.2)).foldl loadStep acc).collected = acc.collected ++ m := by
  intro m
  induction m with
  | nil => intro acc _ _; simp
  | cons p rest ih =>
    intro acc hh hnd
    have hph : (p.2).handle = p.1 := hh p (List.mem_cons_self p rest)
    have hknotacc : ∀ q ∈ acc.collected, q.1 ≠ p.1 := by
      intro q hq hqe
      rw [List.map_cons, List.nodup_append] at hnd
      exact hnd.2.2 (List.mem_map_of_mem (fun r => r.1) hq) (by simp [hqe])
    show ((rest.map (fun q => q.2)).foldl loadStep (loadStep acc p.2)).collected
        = acc.collected ++ p :: rest
    have hstep : (loadStep acc p.2).collected = acc.collected ++ [p] := by
      unfold loadStep
      rw [hph]
      rw [mapSet_eq_append p.1 p.2 acc.collected hknotacc]
    have hnd' : (((loadStep acc p.2).collected.map (fun q => q.1))
        ++ rest.map (fun q => q.1)).Nodup := by
      rw [hstep, List.map_append]
      rw [List.map_cons] at hnd
      simpa [List.append_assoc] using hnd
    have := ih (loadStep acc p.2) (fun q hq => hh q (List.mem_cons_of_mem p hq)) hnd'
    rw [this, hstep, List.append_assoc]
    rfl

/-! ### Helper lemmas about the number parsers -/

theorem takeWhile_nil_of {p : Char → Bool} :
    ∀ {l : List Char}, (∀ c ∈ l, p c = false) → l.takeWhile p = []
  | [], _ => rfl
  | c :: rest, h => by
    rw [List.takeWhile_cons_of_neg]
    simp [h c (List.mem_cons_self c rest)]

theorem mem_of_mem_dropWhile {p : Char → Bool} :
    ∀ {l : List Char} {x : Char}, x ∈ l.dropWhile p → x ∈ l := by
  intro l
  induction l with
  | nil => intro x h; exact h
  | cons c rest ih =>
    intro x h
    by_cases hc : p c
    · rw [List.dropWhile_cons_of_pos hc] at h
      exact List.mem_cons_of_mem c (ih h)
    · rw [List.dropWhile_cons_of_neg hc] at h
      exact h

theorem parseMantissa_none {cs : List Char}
    (h : ∀ c ∈ cs, c.isDigit = false) : parseMantissa cs = none := by
  have ht : cs.takeWhile Char.isDigit = [] := takeWhile_nil_of h
  unfold parseMantissa
  split
  · next r2 heq =>
    rw [if_pos]
    refine ⟨ht, takeWhile_nil_of ?_⟩
    intro c hc
    exact h c (mem_of_mem_dropWhile (heq ▸ List.mem_cons_of_mem _ hc))
  · rw [if_pos ht]

theorem jsParseFloat_none {s : String}
    (h : ∀ c ∈ s.data, c.isDigit = false) : jsParseFloat s = none := by
  have hmem : ∀ c ∈ s.data.dropWhile isWs, c.isDigit = false :=
    fun c hc => h c (mem_of_mem_dropWhile hc)
  unfold jsParseFloat
  split
  · next r heq =>
    rw [parseMantissa_none
      (fun c hc => hmem c (by rw [heq]; exact List.mem_cons_of_mem _ hc))]
    rfl
  · next r heq =>
    rw [parseMantissa_none
      (fun c hc => hmem c (by rw [heq]; exact List.mem_cons_of_mem _ hc))]
    rfl
  · rw [parseMantissa_none hmem]
    rfl

theorem floorScale_nonneg (p : DecVal) (m : Nat) (h : 0 ≤ p.num) :
    0 ≤ p.floorScale m :=
  Int.ediv_nonneg (mul_nonneg h (Int.natCast_nonneg m)) (pow_nonneg (by norm_num) _)

theorem toRat_neg (p : DecVal) (h : p.num < 0) : p.toRat < 0 :=
  div_neg_of_neg_of_pos (by exact_mod_cast h) (by positivity)

theorem stepIter_fst (fix : Iteration) (st : ScrapeState) (stag : Nat) :
    (stepIter fix st stag).1 = processPass fix.cells st := by
  unfold stepIter
  split <;> rfl

theorem mapSet_keys_of_mem (k : String) (v : EnrichedUser) :
    ∀ m, k ∈ m.map (fun p => p.1) →
      (mapSet k v m).map (fun p => p.1) = m.map (fun p => p.1) := by
  intro m
  induction m with
  | nil => intro h; cases h
  | cons p rest ih =>
    intro h
    by_cases hp : p.1 = k
    · rw [show mapSet k v (p :: rest) = (k, v) :: rest by simp [mapSet, hp]]
      simp [hp]
    · rw [show mapSet k v (p :: rest) = p :: mapSet k v rest by simp [mapSet, hp]]
      have : k ∈ rest.map (fun q => q.1) := by
        rw [List.map_cons, List.mem_cons] at h
        rcases h with h1 | h1
        · exact absurd h1 (fun hh => hp hh.symm)
        · exact h1
      simp [ih this]

theorem stateInv_loadStep (st : ScrapeState) (u : EnrichedUser)
    (h : StateInv st) : StateInv (loadStep st u) := by
  by_cases hmem : u.handle ∈ st.processed
  · have hkey : u.handle ∈ st.collected.map (fun p => p.1) := (h.2.2 u.handle).mp hmem
    refine ⟨?_, ?_, ?_⟩
    · show ((mapSet u.handle u st.collected).map (fun p => p.1)).Nodup
      rw [mapSet_keys_of_mem u.handle u st.collected hkey]
      exact h.1
    · exact mapSet_handles u.handle u rfl st.collected h.2.1
    · intro x
      show x ∈ (if u.handle ∈ st.processed then st.processed
          else u.handle :: st.processed) ↔ _
      rw [if_pos hmem]
      show x ∈ st.processed ↔ x ∈ (mapSet u.handle u st.collected).map (fun p => p.1)
      rw [mapSet_keys_of_mem u.handle u st.collected hkey]
      exact h.2.2 x
  · have hkey : u.handle ∉ st.collected.map (fun p => p.1) :=
      fun hk => hmem ((h.2.2 u.handle).mpr hk)
    have happ : mapSet u.handle u st.collected
        = st.collected ++ [(u.handle, u)] :=
      mapSet_eq_append u.handle u st.collected
        (fun p hp hpe => hkey (hpe ▸ List.mem_map_of_mem (fun q => q.1) hp))
    refine ⟨?_, ?_, ?_⟩
    · show ((mapSet u.handle u st.collected).map (fun p => p.1)).Nodup
      rw [happ, List.map_append, List.nodup_append]
      refine ⟨h.1, by simp, ?_⟩
      intro a ha hb
      simp at hb
      exact hkey (hb ▸ ha)
    · exact mapSet_handles u.handle u rfl st.collected h.2.1
    · intro x
      show x ∈ (if u.handle ∈ st.processed then st.processed
          else u.handle :: st.processed) ↔ _
      rw [if_neg hmem]
      show x ∈ u.handle :: st.processed
          ↔ x ∈ (mapSet u.handle u st.collected).map (fun p => p.1)
      rw [happ, List.map_append]
      rw [List.mem_cons, h.2.2 x]
      simp
      tauto

theorem stateInv_loadPrevious : ∀ (prev : Option (List EnrichedUser)),
    StateInv (loadPrevious prev) := by
  intro prev
  cases prev with
  | none => exact stateInv_empty
  | some users =>
    show StateInv (users.foldl loadStep ⟨[], [], []⟩)
    have : ∀ (us : List EnrichedUser) (st : ScrapeState), StateInv st →
        StateInv (us.foldl loadStep st) := by
      intro us
      induction us with
      | nil => intro st h; exact h
      | cons u rest ih => intro st h; exact ih (loadStep st u) (stateInv_loadStep st u h)
    exact this users ⟨[], [], []⟩ stateInv_empty

theorem stateInv_runLoop : ∀ (fuel : Nat) (sched : Nat → Iteration) (i : Nat)
    (st : ScrapeState) (stag : Nat) (res : Nat × ScrapeState), StateInv st →
    runLoop sched fuel i st stag = some res → StateInv res.2 := by
  intro fuel
  induction fuel with
  | zero =>
    intro sched i st stag res h hr
    unfold runLoop at hr
    split at hr
    · cases hr; exact h
    · cases hr
  | succ f ih =>
    intro sched i st stag res h hr
    by_cases h5 : 5 ≤ stag
    · rw [runLoop_settled sched (f + 1) i st h5] at hr
      cases hr; exact h
    · have hr2 : runLoop sched f (i + 1) (stepIter (sched i) st stag).1
          (stepIter (sched i) st stag).2 = some res := by
        rw [← hr]
        conv_rhs => rw [runLoop]
        rw [if_neg h5]
      refine ih sched (i + 1) _ _ res ?_ hr2
      rw [stepIter_fst]
      exact stateInv_processPass (sched i).cells st h

theorem stateInv_scrape (prev : Option (List EnrichedUser))
    (sched : Nat → Iteration) (fuel i : Nat) (st : ScrapeState)
    (h : scrape prev sched fuel = some (i, st)) : StateInv st := by
  unfold scrape at h
  rw [Option.map_eq_some'] at h
  obtain ⟨res, hres, heq⟩ := h
  have hinv := stateInv_runLoop fuel sched 0 (loadPrevious prev) 0 res
    (stateInv_loadPrevious prev) hres
  injection heq with h1 h2
  subst h2
  exact hinv

/-! ### Claim theorems -/

/-- C1: in any run of the scroll loop in which the stagnation check never
sees a handle outside the processed set, the loop settles after exactly 5
consecutive no-progress iterations (not before, not indefinitely), and an
iteration whose check does see an unprocessed handle resets the
stagnation counter to zero. -/
theorem claim_c1_stagnation_settles :
    (∀ (sched : Nat → Iteration) (st : ScrapeState) (fuel : Nat),
        (∀ j, ∀ x ∈ (sched j).visible, x ∈ st.processed) → 5 ≤ fuel →
        ∃ stf, runLoop sched fuel 0 st 0 = some (5, stf)) ∧
    (∀ (fix : Iteration) (st : ScrapeState) (stag : Nat),
        (∃ x ∈ fix.visible, x ∉ (processPass fix.cells st).processed) →
        (stepIter fix st stag).2 = 0) := by
  constructor
  · intro sched st fuel H hfuel
    obtain ⟨stf, h⟩ := runLoop_stagnant sched st.processed H 5 fuel 0 st 0
      (fun x hx => hx) (by omega) hfuel
    exact ⟨stf, by simpa using h⟩
  · exact stepIter_reset

/-- Witness for C1 at a concrete schedule: a single already-processed
visible handle stagnates to termination in exactly 5 iterations, and an
unprocessed visible handle resets the counter. -/
theorem claim_c1_stagnation_settles_witness :
    (∀ j : Nat, ∀ x ∈ ((fun _ => (⟨[], ["a"]⟩ : Iteration)) j).visible,
        x ∈ (⟨[], ["a"], []⟩ : ScrapeState).processed) ∧
    (∃ stf, runLoop (fun _ => ⟨[], ["a"]⟩) 5 0 ⟨[], ["a"], []⟩ 0 = some (5, stf)) ∧
    (stepIter ⟨[], ["b"]⟩ ⟨[], [], []⟩ 3).2 = 0 :=
  ⟨fun _ x hx => hx,
   claim_c1_stagnation_settles.1 (fun _ => ⟨[], ["a"]⟩) ⟨[], ["a"], []⟩ 5
     (fun _ x hx => hx) (by omega),
   claim_c1_stagnation_settles.2 ⟨[], ["b"]⟩ ⟨[], [], []⟩ 3
     ⟨"b", by simp, by simp [processPass]⟩⟩

/-- C2: the follower parser maps text containing k (case-insensitive) to
the floor of its parseFloat value times 1000, text containing m but no k
to the floor of its parseFloat value times 1000000, and other text to a
digits-only integer parse; the spec examples evaluate accordingly and a
text with no numeric pattern yields null. -/
theorem claim_c2_follower_shorthand :
    (∀ s, hasKI s = true →
        parseFollowers s = (jsParseFloat s).map (fun p => ⌊p.toRat * 1000⌋)) ∧
    (∀ s, hasKI s = false → hasMI s = true →
        parseFollowers s = (jsParseFloat s).map (fun p => ⌊p.toRat * 1000000⌋)) ∧
    (∀ s, hasKI s = false → hasMI s = false →
        parseFollowers s = jsParseIntDigits s) ∧
    parseFollowers "12.3K" = some 12300 ∧
    parseFollowers "1.2M" = some 1200000 ∧
    parseFollowers "4,502" = some 4502 ∧
    parseFollowers "" = none := by
  refine ⟨?_, ?_, ?_, by decide, by decide, by decide, by decide⟩
  · intro s hk
    unfold parseFollowers
    rw [if_pos hk]
    congr 1
    funext p
    rw [show ((1000 : Rat)) = ((1000 : Nat) : Rat) by norm_num]
    exact floorScale_eq p 1000
  · intro s hk hm
    unfold parseFollowers
    rw [if_neg (by simp [hk]), if_pos hm]
    congr 1
    funext p
    rw [show ((1000000 : Rat)) = ((1000000 : Nat) : Rat) by norm_num]
    exact floorScale_eq p 1000000
  · intro s hk hm
    unfold parseFollowers
    rw [if_neg (by simp [hk]), if_neg (by simp [hm])]

/-- Witness for C2: the three branch rules applied at the spec inputs. -/
theorem claim_c2_follower_shorthand_witness :
    hasKI "12.3K" = true ∧
    parseFollowers "12.3K" = (jsParseFloat "12.3K").map (fun p => ⌊p.toRat * 1000⌋) ∧
    hasKI "1.2M" = false ∧ hasMI "1.2M" = true ∧
    parseFollowers "1.2M" = (jsParseFloat "1.2M").map (fun p => ⌊p.toRat * 1000000⌋) ∧
    hasKI "4,502" = false ∧ hasMI "4,502" = false ∧
    parseFollowers "4,502" = jsParseIntDigits "4,502" :=
  ⟨by decide, claim_c2_follower_shorthand.1 "12.3K" (by decide),
   by decide, by decide,
   claim_c2_follower_shorthand.2.1 "1.2M" (by decide) (by decide),
   by decide, by decide,
   claim_c2_follower_shorthand.2.2.1 "4,502" (by decide) (by decide)⟩

/-- C3: the collection never holds two entries for one handle (for any
completed scrape run the collected keys are pairwise distinct);
re-encountering a processed handle is a no-op on the whole state; and
rerunning the scrape on an identical static page fixture, resuming from
the dataset the first run saved, reproduces exactly the same collection
(same entries, same size) and the same processed set. -/
theorem claim_c3_dedup_idempotent :
    (∀ (prev : Option (List EnrichedUser)) (sched : Nat → Iteration)
        (fuel i : Nat) (st : ScrapeState),
        scrape prev sched fuel = some (i, st) →
        (st.collected.map (fun p => p.1)).Nodup) ∧
    (∀ (st : ScrapeState) (c : RowObs), rowHandle c ∈ st.processed →
        processCell st c = st) ∧
    (∀ (fix : Iteration) (fuel : Nat), 5 ≤ fuel →
        (∀ x ∈ fix.visible, x ≠ "" ∧ ∃ c ∈ fix.cells, rowHandle c = x) →
        ∀ (i₁ : Nat) (st₁ : ScrapeState),
          scrape none (fun _ => fix) fuel = some (i₁, st₁) →
          ∃ st₂, scrape (some (st₁.collected.map (fun p => p.2)))
              (fun _ => fix) fuel = some (5, st₂) ∧
            st₂.collected = st₁.collected ∧
            st₂.collected.length = st₁.collected.length ∧
            (∀ x, x ∈ st₂.processed ↔ x ∈ st₁.processed)) := by
  refine ⟨?_, ?_, ?_⟩
  · intro prev sched fuel i st hs
    exact (stateInv_scrape prev sched fuel i st hs).1
  · intro st c h
    exact processCell_skip st c (Or.inr h)
  · intro fix fuel hfuel hstatic i1 st1 hrun1
    have hInvA : StateInv (processPass fix.cells ⟨[], [], []⟩) :=
      stateInv_processPass fix.cells ⟨[], [], []⟩ stateInv_empty
    have hvisA : ∀ x ∈ fix.visible,
        x ∈ (processPass fix.cells (⟨[], [], []⟩ : ScrapeState)).processed := by
      intro x hx
      obtain ⟨hne, c, hc, hrc⟩ := hstatic x hx
      have := rowHandle_mem_processPass fix.cells ⟨[], [], []⟩ hc
        (by rw [hrc]; exact hne)
      rwa [hrc] at this
    have hcells : ∀ c ∈ fix.cells, rowHandle c = "" ∨
        rowHandle c ∈ (processPass fix.cells (⟨[], [], []⟩ : ScrapeState)).processed := by
      intro c hc
      by_cases h0 : rowHandle c = ""
      · exact Or.inl h0
      · exact Or.inr (rowHandle_mem_processPass fix.cells ⟨[], [], []⟩ hc h0)
    have hpassA : processPass fix.cells (processPass fix.cells ⟨[], [], []⟩)
        = processPass fix.cells ⟨[], [], []⟩ :=
      processPass_eq_self fix.cells _ hcells
    obtain ⟨f, rfl⟩ : ∃ f, fuel = f + 1 := ⟨fuel - 1, by omega⟩
    have h1 : runLoop (fun _ => fix) (f + 1) 0 ⟨[], [], []⟩ 0
        = some (5, processPass fix.cells ⟨[], [], []⟩) := by
      have hu : runLoop (fun _ => fix) (f + 1) 0 ⟨[], [], []⟩ 0
          = runLoop (fun _ => fix) f 1 (stepIter fix ⟨[], [], []⟩ 0).1
              (stepIter fix ⟨[], [], []⟩ 0).2 := by
        conv_lhs => rw [runLoop]
        rw [if_neg (by omega)]
      rw [hu, stepIter_covered fix ⟨[], [], []⟩ 0 hvisA]
      show runLoop (fun _ => fix) f 1 (processPass fix.cells ⟨[], [], []⟩) 1 = _
      rw [runLoop_fixpoint fix (processPass fix.cells ⟨[], [], []⟩) hpassA hvisA
        4 f 1 1 (by omega) (by omega)]
    have hscr1 : scrape none (fun _ => fix) (f + 1)
        = some (5, finalSave (processPass fix.cells ⟨[], [], []⟩)) := by
      unfold scrape
      rw [show loadPrevious none = (⟨[], [], []⟩ : ScrapeState) from rfl, h1]
      rfl
    rw [hscr1] at hrun1
    rw [Option.some_inj, Prod.mk.injEq] at hrun1
    obtain ⟨hi1, hst1⟩ := hrun1
    have hst1c : st1.collected
        = (processPass fix.cells (⟨[], [], []⟩ : ScrapeState)).collected := by
      rw [← hst1]; rfl
    have hst1p : st1.processed
        = (processPass fix.cells (⟨[], [], []⟩ : ScrapeState)).processed := by
      rw [← hst1]; rfl
    have hBc : (loadPrevious (some (st1.collected.map (fun p => p.2)))).collected
        = (processPass fix.cells (⟨[], [], []⟩ : ScrapeState)).collected := by
      show ((st1.collected.map (fun p => p.2)).foldl loadStep ⟨[], [], []⟩).collected = _
      rw [hst1c]
      rw [foldLoad_roundtrip _ ⟨[], [], []⟩ hInvA.2.1 (by simpa using hInvA.1)]
      simp
    have hkeys : (((processPass fix.cells (⟨[], [], []⟩ : ScrapeState)).collected.map
          (fun p => p.2)).map (fun u => u.handle))
        = (processPass fix.cells (⟨[], [], []⟩ : ScrapeState)).collected.map
            (fun p => p.1) := by
      rw [List.map_map]
      exact List.map_congr_left (fun p hp => hInvA.2.1 p hp)
    have hBp : ∀ x, x ∈ (loadPrevious (some (st1.collected.map (fun p => p.2)))).processed
        ↔ x ∈ (processPass fix.cells (⟨[], [], []⟩ : ScrapeState)).processed := by
      intro x
      show x ∈ ((st1.collected.map (fun p => p.2)).foldl loadStep ⟨[], [], []⟩).processed ↔ _
      rw [mem_foldLoad_processed, hst1c, hkeys, hInvA.2.2 x]
      simp
    have hcellsB : ∀ c ∈ fix.cells, rowHandle c = "" ∨
        rowHandle c ∈ (loadPrevious (some (st1.collected.map (fun p => p.2)))).processed := by
      intro c hc
      rcases hcells c hc with h0 | h0
      · exact Or.inl h0
      · exact Or.inr ((hBp (rowHandle c)).mpr h0)
    have hpassB : processPass fix.cells
          (loadPrevious (some (st1.collected.map (fun p => p.2))))
        = loadPrevious (some (st1.collected.map (fun p => p.2))) :=
      processPass_eq_self fix.cells _ hcellsB
    have hvisB : ∀ x ∈ fix.visible,
        x ∈ (loadPrevious (some (st1.collected.map (fun p => p.2)))).processed :=
      fun x hx => (hBp x).mpr (hvisA x hx)
    have h2 : runLoop (fun _ => fix) (f + 1) 0
        (loadPrevious (some (st1.collected.map (fun p => p.2)))) 0
        = some (5, loadPrevious (some (st1.collected.map (fun p => p.2)))) := by
      rw [runLoop_fixpoint fix _ hpassB hvisB 5 (f + 1) 0 0 (by omega) (by omega)]
    refine ⟨finalSave (loadPrevious (some (st1.collected.map (fun p => p.2)))),
      ?_, ?_, ?_, ?_⟩
    · unfold scrape
      rw [h2]
      rfl
    · show (loadPrevious (some (st1.collected.map (fun p => p.2)))).collected
        = st1.collected
      rw [hBc, hst1c]
    · show (loadPrevious (some (st1.collected.map (fun p => p.2)))).collected.length
        = st1.collected.length
      rw [hBc, hst1c]
    · intro x
      show x ∈ (loadPrevious (some (st1.collected.map (fun p => p.2)))).processed
        ↔ x ∈ st1.processed
      rw [hst1p]
      exact hBp x

/-- Witness for C3 on a concrete one-row static fixture: the first run
collects the single member, and the resumed second run reproduces the
identical collection and processed set. -/
theorem claim_c3_dedup_idempotent_witness :
    scrape none
        (fun _ => ⟨[⟨some "UserAvatar-Container-a", none, none, none,
                     NetOutcome.netError⟩], ["a"]⟩) 5
      = some (5, ⟨[("a", ⟨"a", "", "", none, ""⟩)], ["a"],
                  [[⟨"a", "", "", none, ""⟩]]⟩) ∧
    (∃ st₂, scrape
        (some ((⟨[("a", ⟨"a", "", "", none, ""⟩)], ["a"],
                [[⟨"a", "", "", none, ""⟩]]⟩ : ScrapeState).collected.map
          (fun p => p.2)))
        (fun _ => ⟨[⟨some "UserAvatar-Container-a", none, none, none,
                     NetOutcome.netError⟩], ["a"]⟩) 5 = some (5, st₂) ∧
      st₂.collected = (⟨[("a", ⟨"a", "", "", none, ""⟩)], ["a"],
                       [[⟨"a", "", "", none, ""⟩]]⟩ : ScrapeState).collected ∧
      st₂.collected.length = (⟨[("a", ⟨"a", "", "", none, ""⟩)], ["a"],
                              [[⟨"a", "", "", none, ""⟩]]⟩ : ScrapeState).collected.length ∧
      (∀ x, x ∈ st₂.processed ↔
        x ∈ (⟨[("a", ⟨"a", "", "", none, ""⟩)], ["a"],
             [[⟨"a", "", "", none, ""⟩]]⟩ : ScrapeState).processed)) :=
  ⟨by decide,
   claim_c3_dedup_idempotent.2.2
     ⟨[⟨some "UserAvatar-Container-a", none, none, none, NetOutcome.netError⟩], ["a"]⟩
     5 (by omega) (by decide) 5
     ⟨[("a", ⟨"a", "", "", none, ""⟩)], ["a"], [[⟨"a", "", "", none, ""⟩]]⟩
     (by decide)⟩

/-- C4 counterexample: resuming from a saved file of size 1 (not
divisible by 25) and collecting 25 new profiles produces exactly one
checkpoint, written at total size 25 (24 new profiles), and none at the
moment the 25th new profile is collected (total size 26) — so the
checkpoint cadence follows total size, not the count of new profiles. -/
theorem claim_c4_checkpoint_counterexample :
    ((processPass
        ((List.range 25).map (fun i =>
          (⟨some ("UserAvatar-Container-u" ++ Nat.repr i), none, none, none,
            NetOutcome.netError⟩ : RowObs)))
        (loadPrevious (some [⟨"prev", "", "", none, ""⟩]))).checkpoints.map
      (fun l => l.length)) = [25] ∧
    (processPass
        ((List.range 25).map (fun i =>
          (⟨some ("UserAvatar-Container-u" ++ Nat.repr i), none, none, none,
            NetOutcome.netError⟩ : RowObs)))
        (loadPrevious (some [⟨"prev", "", "", none, ""⟩]))).collected.length = 26 ∧
    ¬ (1 % 25 = 0) := by decide

/-- C4 amended: a checkpoint of the full collection is written exactly
when, after inserting a new profile, the total collection size (resumed
profiles included) is divisible by 25 — which coincides with every 25
newly collected profiles only when the starting size is divisible by 25,
as on a fresh run — and on loop termination one final unconditional
checkpoint of the full collection is always written. -/
theorem claim_c4_checkpoint_cadence :
    (∀ (st : ScrapeState) (c : RowObs), rowHandle c ≠ "" →
        rowHandle c ∉ st.processed →
        (processCell st c).checkpoints = st.checkpoints ++
          (if (mapSet (rowHandle c) (mkUser c (rowHandle c)) st.collected).length % 25 = 0
           then [(mapSet (rowHandle c) (mkUser c (rowHandle c)) st.collected).map
                   (fun p => p.2)]
           else [])) ∧
    (∀ st : ScrapeState, (finalSave st).checkpoints
        = st.checkpoints ++ [st.collected.map (fun p => p.2)]) ∧
    (∀ (prev : Option (List EnrichedUser)) (sched : Nat → Iteration)
        (fuel i : Nat) (st : ScrapeState),
        scrape prev sched fuel = some (i, st) →
        st.checkpoints.getLast? = some (st.collected.map (fun p => p.2))) := by
  refine ⟨?_, ?_, ?_⟩
  · intro st c h1 h2
    unfold processCell
    rw [if_neg (by push_neg; exact ⟨h1, h2⟩)]
    by_cases hmod :
        (mapSet (rowHandle c) (mkUser c (rowHandle c)) st.collected).length % 25 = 0
    · rw [if_pos hmod, if_pos hmod]
    · rw [if_neg hmod, if_neg hmod, List.append_nil]
  · intro st
    rfl
  · intro prev sched fuel i st h
    unfold scrape at h
    rw [Option.map_eq_some'] at h
    obtain ⟨res, hres, heq⟩ := h
    injection heq with hi hst
    subst hst
    show (res.2.checkpoints ++ [res.2.collected.map (fun p => p.2)]).getLast? = _
    rw [List.getLast?_concat]
    rfl

/-- Witness for C4 amended: a fresh single insertion takes the no-write
branch at size 1, and an empty-fixture scrape ends in a final checkpoint
equal to the (empty) collection values. -/
theorem claim_c4_checkpoint_cadence_witness :
    (processCell ⟨[], [], []⟩
        ⟨some "UserAvatar-Container-b", none, none, none,
         NetOutcome.netError⟩).checkpoints
      = ([] : List (List EnrichedUser)) ++
        (if (mapSet
              (rowHandle (⟨some "UserAvatar-Container-b", none, none, none,
                NetOutcome.netError⟩ : RowObs))
              (mkUser ⟨some "UserAvatar-Container-b", none, none, none,
                NetOutcome.netError⟩
                (rowHandle (⟨some "UserAvatar-Container-b", none, none, none,
                  NetOutcome.netError⟩ : RowObs)))
              ([] : List (String × EnrichedUser))).length % 25 = 0
         then [(mapSet
                 (rowHandle (⟨some "UserAvatar-Container-b", none, none, none,
                   NetOutcome.netError⟩ : RowObs))
                 (mkUser ⟨some "UserAvatar-Container-b", none, none, none,
                   NetOutcome.netError⟩
                   (rowHandle (⟨some "UserAvatar-Container-b", none, none, none,
                     NetOutcome.netError⟩ : RowObs)))
                 ([] : List (String × EnrichedUser))).map (fun p => p.2)]
         else []) ∧
    (⟨[], [], [[]]⟩ : ScrapeState).checkpoints.getLast?
      = some ((⟨[], [], [[]]⟩ : ScrapeState).collected.map (fun p => p.2)) :=
  ⟨claim_c4_checkpoint_cadence.1 ⟨[], [], []⟩
     ⟨some "UserAvatar-Container-b", none, none, none, NetOutcome.netError⟩
     (by decide) (by decide),
   claim_c4_checkpoint_cadence.2.2 none (fun _ => ⟨[], []⟩) 5 5 ⟨[], [], [[]]⟩
     (by decide)⟩

/-- C5: when the hover card never appears, the evaluate returns an empty
bio and null followers, and the row is still processed into a profile
carrying its handle, the row name and avatar URL — extraction is total
and never fails. -/
theorem claim_c5_degraded_extraction :
    hoverEval none = ("", none) ∧
    (∀ (st : ScrapeState) (c : RowObs), c.hoverCard = none →
        rowHandle c ≠ "" → rowHandle c ∉ st.processed →
        mapGet (rowHandle c) (processCell st c).collected
          = some ⟨rowHandle c, c.nameText.getD "", "", none, c.imgSrc.getD ""⟩) := by
  refine ⟨rfl, ?_⟩
  intro st c hcard hne hnp
  unfold processCell
  rw [if_neg (by push_neg; exact ⟨hne, hnp⟩)]
  show mapGet (rowHandle c)
      (mapSet (rowHandle c) (mkUser c (rowHandle c)) st.collected) = _
  rw [mapGet_mapSet_self]
  unfold mkUser
  rw [hcard]
  rfl

/-- Witness for C5 at a concrete row whose hover card is absent. -/
theorem claim_c5_degraded_extraction_witness :
    mapGet "bob" (processCell ⟨[], [], []⟩
        ⟨some "UserAvatar-Container-bob", none, some "https://img/bob.jpg",
         some "Bob", NetOutcome.netError⟩).collected
      = some ⟨"bob", "Bob", "", none, "https://img/bob.jpg"⟩ := by
  have := claim_c5_degraded_extraction.2 ⟨[], [], []⟩
    ⟨some "UserAvatar-Container-bob", none, some "https://img/bob.jpg",
     some "Bob", NetOutcome.netError⟩ rfl (by decide) (by decide)
  simpa using this

/-- C6 counterexample: a response with the non-2xx status 404 and a
clean stream resolves successfully (the status code is never inspected),
and a write-stream error event — one of the stream errors the claim says
is caught and logged — instead crashes the process without ever
rejecting, so it is neither caught nor survivable by the scrape loop. -/
theorem claim_c6_download_counterexample :
    downloadImage (NetOutcome.response 404 false false) = DownloadResult.resolved ∧
    ¬ (200 ≤ 404 ∧ 404 ≤ 299) ∧
    downloadImage NetOutcome.fileStreamError = DownloadResult.crashed := by decide

/-- C6 amended: the image fetch rejects with an error exactly on a
network (request) failure or a file-close error — a non-2xx status alone
never fails — while a write-stream or response-stream error is unhandled
and crashes the whole process instead of rejecting, so only for download
outcomes that settle is the orchestrator unaffected: for those the
rejection is swallowed by the try/catch and the row is processed
identically, with the profile still recorded and pfp_url set to the row
avatar URL. -/
theorem claim_c6_download_errors :
    (∀ o : NetOutcome, (∃ e, downloadImage o = DownloadResult.rejected e) ↔
        (o = NetOutcome.netError ∨ ∃ s, o = NetOutcome.response s false true)) ∧
    (∀ o : NetOutcome, downloadImage o = DownloadResult.crashed ↔
        (o = NetOutcome.fileStreamError ∨
         ∃ s ce, o = NetOutcome.response s true ce)) ∧
    (∀ (st : ScrapeState) (c : RowObs) (o : NetOutcome),
        downloadImage o ≠ DownloadResult.crashed →
        processCell st ⟨c.avatarTestId, c.hoverCard, c.imgSrc, c.nameText, o⟩
          = processCell st c) ∧
    (∀ (st : ScrapeState) (c : RowObs), rowHandle c ≠ "" →
        rowHandle c ∉ st.processed →
        ∃ u, mapGet (rowHandle c) (processCell st c).collected = some u ∧
          u.pfp_url = c.imgSrc.getD "") := by
  refine ⟨?_, ?_, ?_, ?_⟩
  · intro o
    cases o with
    | netError => simp [downloadImage]
    | fileStreamError => simp [downloadImage]
    | response s se ce =>
      cases se with
      | false =>
        cases ce with
        | false => simp [downloadImage]
        | true => simp [downloadImage]
      | true => simp [downloadImage]
  · intro o
    cases o with
    | netError => simp [downloadImage]
    | fileStreamError => simp [downloadImage]
    | response s se ce =>
      cases se with
      | false =>
        cases ce with
        | false => simp [downloadImage]
        | true => simp [downloadImage]
      | true => simp [downloadImage]
  · intro st c o _
    cases c
    rfl
  · intro st c h1 h2
    refine ⟨mkUser c (rowHandle c), ?_, rfl⟩
    unfold processCell
    rw [if_neg (by push_neg; exact ⟨h1, h2⟩)]
    exact mapGet_mapSet_self (rowHandle c) (mkUser c (rowHandle c)) st.collected

/-- Witness for C6 amended: on a concrete row, swapping a clean download
for a settling (rejected, then caught) request error leaves row
processing unchanged, and the recorded profile keeps its pfp_url. -/
theorem claim_c6_download_errors_witness :
    (processCell ⟨[], [], []⟩
        ⟨some "UserAvatar-Container-eve", none, some "https://img/eve.jpg",
         none, NetOutcome.netError⟩
      = processCell ⟨[], [], []⟩
        ⟨some "UserAvatar-Container-eve", none, some "https://img/eve.jpg",
         none, NetOutcome.response 200 false false⟩) ∧
    (∃ u, mapGet "eve" (processCell ⟨[], [], []⟩
        ⟨some "UserAvatar-Container-eve", none, some "https://img/eve.jpg",
         none, NetOutcome.response 200 false false⟩).collected = some u ∧
      u.pfp_url = (some "https://img/eve.jpg").getD "") :=
  ⟨claim_c6_download_errors.2.2.1 ⟨[], [], []⟩
     ⟨some "UserAvatar-Container-eve", none, some "https://img/eve.jpg",
      none, NetOutcome.response 200 false false⟩ NetOutcome.netError
     (by decide),
   claim_c6_download_errors.2.2.2 ⟨[], [], []⟩
     ⟨some "UserAvatar-Container-eve", none, some "https://img/eve.jpg",
      none, NetOutcome.response 200 false false⟩ (by decide) (by decide)⟩

/-- C7: with no previous dataset file the loader returns empty
structures; with a file present, the processed set holds exactly the
handles of the loaded profiles, and the collection maps each loaded
handle to its stored profile. -/
theorem claim_c7_resume_load :
    loadPrevious none = ⟨[], [], []⟩ ∧
    (∀ (users : List EnrichedUser) (x : String),
        x ∈ (loadPrevious (some users)).processed
          ↔ x ∈ users.map (fun u => u.handle)) ∧
    (∀ (users : List EnrichedUser) (u : EnrichedUser),
        (users.map (fun w => w.handle)).Nodup → u ∈ users →
        mapGet u.handle (loadPrevious (some users)).collected = some u) := by
  refine ⟨rfl, ?_, ?_⟩
  · intro users x
    show x ∈ (users.foldl loadStep ⟨[], [], []⟩).processed ↔ _
    rw [mem_foldLoad_processed]
    simp
  · intro users u hnd hu
    exact mapGet_foldLoad users ⟨[], [], []⟩ u hnd hu

/-- Witness for C7: loading a concrete two-profile file maps the second
handle to its stored profile. -/
theorem claim_c7_resume_load_witness :
    ([⟨"ada", "Ada", "", some 3, ""⟩,
      ⟨"bob", "Bob", "hi", none, "u"⟩].map
        (fun w : EnrichedUser => w.handle)).Nodup ∧
    mapGet "bob" (loadPrevious
        (some [⟨"ada", "Ada", "", some 3, ""⟩,
               ⟨"bob", "Bob", "hi", none, "u"⟩])).collected
      = some ⟨"bob", "Bob", "hi", none, "u"⟩ :=
  ⟨by decide,
   claim_c7_resume_load.2.2
     [⟨"ada", "Ada", "", some 3, ""⟩, ⟨"bob", "Bob", "hi", none, "u"⟩]
     ⟨"bob", "Bob", "hi", none, "u"⟩ (by decide) (by decide)⟩

/-- C8 counterexample: a concrete checkpoint write issues exactly an
ensure-directory and a single writeJSON straight to the destination
path, and contains no rename at all — there is no write-temp-then-rename
step for a reader to be protected by. -/
theorem claim_c8_write_rename_counterexample :
    checkpointOps [⟨"a", "A", "", none, ""⟩]
      = [FsOp.ensureDir "./data",
         FsOp.writeJSON outputPath [⟨"a", "A", "", none, ""⟩]] ∧
    (checkpointOps [⟨"a", "A", "", none, ""⟩]).all
      (fun op => !(isRenameOp op)) = true := by decide

/-- C8 amended: every checkpoint write serializes the full collection
directly to the destination path in a single writeJSON call, with no
temporary file and no rename, so a concurrent reader can observe a
partially written file. -/
theorem claim_c8_direct_write :
    (∀ users : List EnrichedUser, checkpointOps users
        = [FsOp.ensureDir "./data", FsOp.writeJSON outputPath users]) ∧
    (∀ users : List EnrichedUser,
        (checkpointOps users).all (fun op => !(isRenameOp op)) = true) :=
  ⟨fun _ => rfl, fun _ => rfl⟩

/-- C9 counterexample: a follower label of -1k parses successfully to
the negative stored value -1000, violating non-negativity of the
followers field of a collected profile. -/
theorem claim_c9_negative_followers_counterexample :
    mapGet "neg" (processCell ⟨[], [], []⟩
        ⟨some "UserAvatar-Container-neg",
         some ⟨[], [⟨some "/neg/followers", some "-1k"⟩]⟩,
         none, none, NetOutcome.netError⟩).collected
      = some ⟨"neg", "", "", some (-1000), ""⟩ ∧ ((-1000 : Int) < 0) := by decide

/-- C9 amended: a label text on which parsing fails (in particular one
with no digit at all) stores null and parsing never throws (it is a
total function); the stored value is an integer or null, and it can be
negative only when the parseFloat value of the label is itself negative
(as with a leading minus sign) — otherwise it is non-negative. -/
theorem claim_c9_followers_value :
    (∀ t : String, (t.data.all (fun ch => !ch.isDigit)) = true →
        parseFollowers t = none) ∧
    (∀ (t : String) (n : Int), parseFollowers t = some n → n < 0 →
        ∃ p, jsParseFloat t = some p ∧ p.toRat < 0) := by
  constructor
  · intro t h
    have hall : ∀ c ∈ t.data, c.isDigit = false := by
      intro c hc
      simpa using List.all_eq_true.mp h c hc
    unfold parseFollowers
    by_cases hk : hasKI t = true
    · rw [if_pos hk, jsParseFloat_none hall]
      rfl
    · rw [if_neg hk]
      by_cases hm : hasMI t = true
      · rw [if_pos hm, jsParseFloat_none hall]
        rfl
      · rw [if_neg hm]
        unfold jsParseIntDigits
        rw [if_pos]
        rw [List.filter_eq_nil_iff]
        intro c hc
        simp [hall c hc]
  · intro t n hp hneg
    unfold parseFollowers at hp
    by_cases hk : hasKI t = true
    · rw [if_pos hk, Option.map_eq_some'] at hp
      obtain ⟨p, hjp, hval⟩ := hp
      refine ⟨p, hjp, toRat_neg p ?_⟩
      by_contra hge
      push_neg at hge
      have h0 := floorScale_nonneg p 1000 hge
      rw [hval] at h0
      omega
    · rw [if_neg hk] at hp
      by_cases hm : hasMI t = true
      · rw [if_pos hm, Option.map_eq_some'] at hp
        obtain ⟨p, hjp, hval⟩ := hp
        refine ⟨p, hjp, toRat_neg p ?_⟩
        by_contra hge
        push_neg at hge
        have h0 := floorScale_nonneg p 1000000 hge
        rw [hval] at h0
        omega
      · rw [if_neg hm] at hp
        unfold jsParseIntDigits at hp
        by_cases hnil : t.data.filter Char.isDigit = []
        · rw [if_pos hnil] at hp
          cases hp
        · rw [if_neg hnil] at hp
          injection hp with hn
          exfalso
          have h0 : (0 : Int) ≤ (digitsToNat (t.data.filter Char.isDigit) : Int) :=
            Int.natCast_nonneg _
          omega

/-- Witness for C9 amended: a digit-free label stores null, and the
negative stored value -1000 arises only from the negative parseFloat
value of the label -1k. -/
theorem claim_c9_followers_value_witness :
    ("abc".data.all (fun ch => !ch.isDigit)) = true ∧
    parseFollowers "abc" = none ∧
    parseFollowers "-1k" = some (-1000) ∧
    (∃ p, jsParseFloat "-1k" = some p ∧ p.toRat < 0) :=
  ⟨by decide, claim_c9_followers_value.1 "abc" (by decide), by decide,
   claim_c9_followers_value.2 "-1k" (-1000) (by decide) (by decide)⟩

/-- C10: the visualization keeps exactly the loaded profiles whose
followers field is a number strictly greater than zero; any profile with
null or zero followers is dropped, and in particular every profile built
by the degraded no-hover-card extraction path is never rendered. -/
theorem claim_c10_vis_filter :
    (∀ (us : List EnrichedUser) (u : EnrichedUser),
        u ∈ filterUsers us ↔ u ∈ us ∧ keepUser u = true) ∧
    (∀ u : EnrichedUser, keepUser u = true ↔
        ∃ n : Int, u.followers = some n ∧ 0 < n) ∧
    (∀ (us : List EnrichedUser) (u : EnrichedUser), u ∈ us →
        (u.followers = none ∨ u.followers = some 0) → u ∉ filterUsers us) ∧
    (∀ (us : List EnrichedUser) (c : RowObs) (handle : String),
        c.hoverCard = none → mkUser c handle ∉ filterUsers us) := by
  have hmem : ∀ (us : List EnrichedUser) (u : EnrichedUser),
      u ∈ filterUsers us ↔ u ∈ us ∧ keepUser u = true := by
    intro us u
    exact List.mem_filter
  refine ⟨hmem, ?_, ?_, ?_⟩
  · intro u
    unfold keepUser
    cases hf : u.followers with
    | none => simp
    | some n => simp
  · intro us u _ hnull hin
    have hk := (hmem us u).mp hin
    rcases hnull with h0 | h0 <;> simp [keepUser, h0] at hk
  · intro us c handle hc hin
    have hk := (hmem us (mkUser c handle)).mp hin
    have : keepUser (mkUser c handle) = false := by
      unfold keepUser mkUser
      rw [hc]
      rfl
    rw [this] at hk
    cases hk.2

/-- Witness for C10: a null-followers profile and a degraded-extraction
profile are both absent from the filtered dataset. -/
theorem claim_c10_vis_filter_witness :
    (⟨"n", "", "", none, ""⟩ : EnrichedUser)
        ∉ filterUsers [⟨"n", "", "", none, ""⟩] ∧
    mkUser ⟨some "UserAvatar-Container-d", none, none, none,
        NetOutcome.netError⟩ "d"
      ∉ filterUsers [⟨"d", "", "", none, ""⟩] :=
  ⟨claim_c10_vis_filter.2.2.1 [⟨"n", "", "", none, ""⟩] ⟨"n", "", "", none, ""⟩
     (by decide) (Or.inl rfl),
   claim_c10_vis_filter.2.2.2 [⟨"d", "", "", none, ""⟩]
     ⟨some "UserAvatar-Container-d", none, none, none, NetOutcome.netError⟩
     "d" rfl⟩

end UniverseOfX
